import Mathlib

/-!
Verification of the taqweem calendar backend (src/server.js) against its
natural-language specification.  The `DataCache` class and its methods are
shallowly embedded below: JS objects become structures, the `eventsByDate`
plain-object index becomes a total function from (optional) date keys to
event lists (an absent key and a present-but-empty bucket are observationally
identical in the source, since every read either defaults to `[]` or spreads
the array), and JS exceptions become `Option` results.  Clock readings
(`Date.now()`, `new Date().toISOString()`) and date parsing are passed in
explicitly as parameters, mirroring the ambient-time dependence of the code.
-/

set_option maxRecDepth 4000

/-- Per-channel notification lead-time lists (`eventData.notifications`). -/
structure NotificationSchedule where
  push : List String
  email : List String
  sms : List String
deriving DecidableEq, Repr

/-- The default schedule applied by `addEvent` when none is supplied:
`{ push: ['15m'], email: ['1h'], sms: [] }` (server.js:150-154). -/
def defaultNotifications : NotificationSchedule :=
  { push := ["15m"], email := ["1h"], sms := [] }

/-- A stored calendar event.  Fields that a JS event object may lack are
`Option`; `type` is the category tag field of the source (`event.type`). -/
structure Event where
  id : String
  title : Option String
  date : Option String
  time : Option String
  type : Option String
  description : Option String
  location : Option String
  notifications : NotificationSchedule
  createdAt : String
  updatedAt : Option String
deriving DecidableEq, Repr

/-- The request body for `addEvent` / `updateEvent` (`eventData` /
`updates`): every key may be absent.  An explicit `id` key is modelled
because the source spreads `...eventData` AFTER the generated `id`,
letting a caller-supplied `id` override it. -/
structure EventData where
  id : Option String
  title : Option String
  date : Option String
  time : Option String
  type : Option String
  description : Option String
  location : Option String
  notifications : Option NotificationSchedule
deriving DecidableEq, Repr

/-- The event-data record with every key absent. -/
def EventData.empty : EventData :=
  { id := none, title := none, date := none, time := none, type := none,
    description := none, location := none, notifications := none }

/-- The in-memory store: the primary `events` array and the `eventsByDate`
secondary index (server.js:20,30).  The index key is `Option String`
because a date-less event is indexed under the missing (`undefined`) key. -/
structure DataCache where
  events : List Event
  eventsByDate : Option String → List Event

/-- The freshly constructed cache (`events` empty, index empty). -/
def emptyCache : DataCache :=
  { events := [], eventsByDate := fun _ => [] }

/-- `DataCache.addEvent` (server.js:145-176).  Builds
`{ id: Date.now().toString(), ...eventData, createdAt, notifications: eventData.notifications || default }`,
pushes it onto `events` and onto the `eventsByDate` bucket for its date.
`nowMs` is the `Date.now()` reading and `nowIso` the ISO timestamp.
There is no validation of any field. -/
def addEvent (nowMs : Nat) (nowIso : String) (eventData : EventData)
    (s : DataCache) : Event × DataCache :=
  let newEvent : Event :=
    { id := eventData.id.getD (Nat.repr nowMs),
      title := eventData.title,
      date := eventData.date,
      time := eventData.time,
      type := eventData.type,
      description := eventData.description,
      location := eventData.location,
      notifications := eventData.notifications.getD defaultNotifications,
      createdAt := nowIso,
      updatedAt := none }
  (newEvent,
    { events := s.events ++ [newEvent],
      eventsByDate := fun k =>
        if k = newEvent.date then s.eventsByDate k ++ [newEvent]
        else s.eventsByDate k })

/-- The merge `{...oldEvent, ...updates, id: eventId, updatedAt: now}` of
`DataCache.updateEvent` (server.js:184-189): provided fields override,
absent fields are retained, `id` is forced back to `eventId` (so an `id`
key inside `updates` has no effect), and `updatedAt` is always set. -/
def mergeEvent (nowIso : String) (eventId : String) (oldEvent : Event)
    (updates : EventData) : Event :=
  { id := eventId,
    title := updates.title <|> oldEvent.title,
    date := updates.date <|> oldEvent.date,
    time := updates.time <|> oldEvent.time,
    type := updates.type <|> oldEvent.type,
    description := updates.description <|> oldEvent.description,
    location := updates.location <|> oldEvent.location,
    notifications := updates.notifications.getD oldEvent.notifications,
    createdAt := oldEvent.createdAt,
    updatedAt := some nowIso }

/-- `DataCache.updateEvent` (server.js:179-216).  Finds the event by id
(`findIndex`), returns `none` (JS `null`) when absent; otherwise replaces
it in place in `events` and, ONLY when the date changed, removes the id
from the old date bucket and pushes the merged event onto the new one.
When the date is unchanged the index is left untouched, so the old bucket
keeps the superseded event object. -/
def updateEvent (nowIso : String) (eventId : String) (updates : EventData)
    (s : DataCache) : Option (Event × DataCache) :=
  match s.events.findIdx? (fun e => e.id == eventId) with
  | none => none
  | some i =>
    match s.events[i]? with
    | none => none
    | some oldEvent =>
      let updatedEvent := mergeEvent nowIso eventId oldEvent updates
      some (updatedEvent,
        { events := s.events.set i updatedEvent,
          eventsByDate :=
            if oldEvent.date ≠ updatedEvent.date then
              fun k =>
                if k = oldEvent.date then
                  (s.eventsByDate k).filter (fun e => e.id != eventId)
                else if k = updatedEvent.date then
                  s.eventsByDate k ++ [updatedEvent]
                else s.eventsByDate k
            else s.eventsByDate })

/-- Occurrence of `needle` as a contiguous run inside a character list:
either it is a prefix here, or it occurs further right. -/
def containsSub (needle : List Char) : List Char → Bool
  | [] => needle.isEmpty
  | c :: rest => needle.isPrefixOf (c :: rest) || containsSub needle rest

/-- JS string `s.includes(q)`: `q` occurs as a contiguous substring of `s`. -/
def jsIncludes (s q : String) : Bool :=
  containsSub q.toList s.toList

/-- JS `String.prototype.toLowerCase()`, character by character. -/
def jsToLower (s : String) : String :=
  String.mk (s.data.map Char.toLower)

/-- The per-event predicate of `DataCache.searchEvents` (server.js:93-97),
with JS dynamic semantics made explicit: `event.title.toLowerCase()`
throws (`none`) when `title` is absent; the `description` access is
guarded by truthiness (`event.description && ...`, so an absent or empty
description contributes `false`); the `type` access throws when reached
on an absent `type`, but `||` short-circuiting means it is only reached
when neither title nor description matched. -/
def matchesQuery (lowerQuery : String) (e : Event) : Option Bool :=
  match e.title with
  | none => none
  | some t =>
    if jsIncludes (jsToLower t) lowerQuery then some true
    else if (match e.description with
             | some d => d != "" && jsIncludes (jsToLower d) lowerQuery
             | none => false) then some true
    else
      match e.type with
      | none => none
      | some ty => some (jsIncludes (jsToLower ty) lowerQuery)

/-- `Array.prototype.filter` over a predicate that may throw: the first
thrown access aborts the whole call (`none`). -/
def filterSafe (p : α → Option Bool) : List α → Option (List α)
  | [] => some []
  | a :: as =>
    match p a, filterSafe p as with
    | some true, some r => some (a :: r)
    | some false, some r => some r
    | _, _ => none

/-- `DataCache.searchEvents` (server.js:91-98): lowercases the query and
filters the whole primary store by case-insensitive substring match over
title, description, and type.  `none` models a thrown `TypeError`. -/
def searchEvents (query : String) (events : List Event) : Option (List Event) :=
  filterSafe (matchesQuery (jsToLower query)) events

/-- `DataCache.getEventsInRange` (server.js:106-119): walks each calendar
day from `startDate` through `endDate` inclusive and concatenates the
date-index buckets.  `rangeDays a b` is the list of day strings the JS
`Date` loop visits, passed in as a parameter (calendar arithmetic is the
`Date` library's). -/
def getEventsInRange (rangeDays : String → String → List String)
    (startDate endDate : String) (s : DataCache) : List Event :=
  ((rangeDays startDate endDate).map (fun d => s.eventsByDate (some d))).flatten

/-- The date field as used by the JS sort comparator `new Date(a.date)`;
every event reached through a date bucket has `date = some key`. -/
def dateField (e : Event) : String :=
  e.date.getD ""

/-- `DataCache.getUpcomingEvents` (server.js:74-88): walks each calendar
day from today through `today + days` inclusive (`d <= end`, so `days + 1`
buckets), concatenates the buckets, then sorts by date ascending with the
engine's stable sort.  `dayStr i` is the `toISOString` day string of
abstract day number `i`, and `dateVal` the `new Date(...)` parse, both
passed as parameters. -/
def getUpcomingEvents (dayStr : Nat → String) (dateVal : String → Int)
    (today days : Nat) (s : DataCache) : List Event :=
  let result :=
    ((List.range (days + 1)).map
      (fun i => s.eventsByDate (some (dayStr (today + i))))).flatten
  result.mergeSort (fun a b => decide (dateVal (dateField a) ≤ dateVal (dateField b)))

/-- An entry produced by `getEventsNeedingReminders`: the event spread
together with `minutesUntil` and `notificationTime` (server.js:132-136). -/
structure ReminderEntry where
  event : Event
  minutesUntil : Int
  notificationTime : String
deriving DecidableEq, Repr

/-- `DataCache.getEventsNeedingReminders` (server.js:122-142): for every
event whose `date` and `time` are both truthy (present and non-empty),
compute the combined timestamp `dateTimeMs date time` (the
`new Date(date + 'T' + time)` parse, a parameter) and keep the event when
`now < T ≤ now + minutesBefore * 60000`, recording the floored minutes
until it.  The cache itself is read, never written. -/
def getEventsNeedingReminders (dateTimeMs : String → String → Int)
    (nowMs : Int) (nowIso : String) (minutesBefore : Nat)
    (s : DataCache) : List ReminderEntry :=
  let checkTime := nowMs + (minutesBefore : Int) * 60000
  s.events.filterMap (fun e =>
    match e.date, e.time with
    | some d, some t =>
      if d ≠ "" ∧ t ≠ "" then
        let eventTime := dateTimeMs d t
        if nowMs < eventTime ∧ eventTime ≤ checkTime then
          some { event := e,
                 minutesUntil := (eventTime - nowMs) / 60000,
                 notificationTime := nowIso }
        else none
      else none
    | _, _ => none)

/-- The query parameters of `GET /api/events` (server.js:535) after the
route layer's defaults (`limit = 100`, `offset = 0`) and numeric
conversion.  `rangeStart`/`rangeEnd` are the source's `start`/`end`
(renamed: `end` is reserved in Lean). -/
structure ListQuery where
  rangeStart : Option String
  rangeEnd : Option String
  month : Option Nat
  year : Option Nat
  type : Option String
  search : Option String
  limit : Nat
  offset : Nat
deriving DecidableEq, Repr

/-- The JSON body of a successful `GET /api/events` response
(server.js:559-566). -/
structure ListResponse where
  events : List Event
  total : Nat
  limit : Nat
  offset : Nat
  hasMore : Bool
deriving DecidableEq, Repr

/-- The response assembly of the `GET /api/events` handler
(server.js:556-566): `total` is the length of the filtered list, the page
is `slice(offset, offset + limit)`, and `hasMore = total > offset + limit`. -/
def paginate (filtered : List Event) (q : ListQuery) : ListResponse :=
  { events := (filtered.drop q.offset).take q.limit,
    total := filtered.length,
    limit := q.limit,
    offset := q.offset,
    hasMore := decide (filtered.length > q.offset + q.limit) }

/-- The range stage of the `GET /api/events` handler (server.js:539-545):
a `start`+`end` range, or else a `month`+`year` range whose bounds
`monthRangeOf year month` the route layer builds from the calendar, or
else the whole store. -/
def rangeFilteredOf (rangeDays : String → String → List String)
    (monthRangeOf : Nat → Nat → String × String)
    (q : ListQuery) (s : DataCache) : List Event :=
  match q.rangeStart, q.rangeEnd with
  | some a, some b => getEventsInRange rangeDays a b s
  | _, _ =>
    match q.month, q.year with
    | some m, some y =>
      getEventsInRange rangeDays (monthRangeOf y m).1 (monthRangeOf y m).2 s
    | _, _ => s.events

/-- The `type` filter stage (server.js:547-549), applied to the
range-filtered list. -/
def typeFilteredOf (rangeDays : String → String → List String)
    (monthRangeOf : Nat → Nat → String × String)
    (q : ListQuery) (s : DataCache) : List Event :=
  match q.type with
  | some t =>
    (rangeFilteredOf rangeDays monthRangeOf q s).filter
      (fun e => e.type == some t)
  | none => rangeFilteredOf rangeDays monthRangeOf q s

/-- The `GET /api/events` handler (server.js:533-570): the range stage,
then the `type` filter on its result — but a `search` parameter REPLACES
the accumulated result with `searchEvents` over the whole store.  A
thrown search (`none`) becomes the handler's 500 branch. -/
def apiGetEvents (rangeDays : String → String → List String)
    (monthRangeOf : Nat → Nat → String × String)
    (q : ListQuery) (s : DataCache) : Option ListResponse :=
  match q.search with
  | some qs =>
    match searchEvents qs s.events with
    | none => none
    | some found => some (paginate found q)
  | none => some (paginate (typeFilteredOf rangeDays monthRangeOf q s) q)

/-- A registered webhook subscription (server.js:267-276): target `url`,
subscribed event-type tags `events` (possibly the wildcard string), and
an optional shared `secret`. -/
structure Webhook where
  id : String
  url : String
  events : List String
  secret : Option String
  createdAt : String
deriving DecidableEq, Repr

/-- The `data` field of a webhook payload: a full event for
created/updated/reminder deliveries, or the bare `{ id }` object for
deletions (server.js:238). -/
inductive WebhookData where
  | ev : Event → WebhookData
  | deletedId : String → WebhookData
deriving DecidableEq, Repr

/-- The webhook request body `{ event, data, timestamp }`
(server.js:297-301). -/
structure WebhookPayload where
  event : String
  data : WebhookData
  timestamp : String
deriving DecidableEq, Repr

/-- One outbound delivery attempt as `callWebhook` prepares it: the
target URL, the payload, and the headers sent with it. -/
structure DeliveryAttempt where
  url : String
  payload : WebhookPayload
  headers : List (String × String)
deriving DecidableEq, Repr

/-- `DataCache.callWebhook` (server.js:295-318): builds the payload,
starts from a `Content-Type` header, and, when the subscription has a
secret, appends an `X-Calendar-Signature` header holding the keyed
digest `hmac secret (serialize payload)` of the exact serialized payload
(`crypto.createHmac('sha256', secret).update(JSON.stringify(payload))`).
`hmac` and `serialize` stand for the crypto and JSON libraries. -/
def callWebhook (hmac : String → String → String)
    (serialize : WebhookPayload → String) (nowIso : String)
    (eventType : String) (data : WebhookData) (w : Webhook) : DeliveryAttempt :=
  let payload : WebhookPayload :=
    { event := eventType, data := data, timestamp := nowIso }
  let headers :=
    match w.secret with
    | some secret =>
      [("Content-Type", "application/json"),
       ("X-Calendar-Signature", hmac secret (serialize payload))]
    | none => [("Content-Type", "application/json")]
  { url := w.url, payload := payload, headers := headers }

/-- `DataCache.triggerWebhooks` (server.js:284-293): one delivery attempt
for exactly the registered subscriptions whose `events` list contains the
fired event type or the wildcard, in registration order. -/
def triggerWebhooks (hmac : String → String → String)
    (serialize : WebhookPayload → String) (nowIso : String)
    (eventType : String) (data : WebhookData)
    (webhooks : List Webhook) : List DeliveryAttempt :=
  (webhooks.filter (fun w =>
      w.events.contains eventType || w.events.contains "*")).map
    (callWebhook hmac serialize nowIso eventType data)

/-- The durable document of `writeEvents` (server.js:416-419): the full
event array plus a last-modified timestamp, rendered through `JSON` (the
textual JSON layer, faithful on these record values, is elided). -/
structure StoredDoc where
  events : List Event
  lastModified : String
deriving DecidableEq, Repr

/-- `DataCache.writeEvents` (server.js:414-426): snapshots the event
array with a fresh timestamp. -/
def writeEvents (nowIso : String) (s : DataCache) : StoredDoc :=
  { events := s.events, lastModified := nowIso }

/-- The index rebuild loop of `loadEvents` (server.js:51-57): starting
from an empty object, push each event of the array, in order, onto the
bucket of its own date. -/
def rebuildIndex (events : List Event) : Option String → List Event :=
  events.foldl
    (fun idx e => fun k => if k = e.date then idx k ++ [e] else idx k)
    (fun _ => [])

/-- `DataCache.loadEvents` (server.js:43-65): installs the parsed event
array and re-derives the date index from it. -/
def loadEvents (doc : StoredDoc) : DataCache :=
  { events := doc.events, eventsByDate := rebuildIndex doc.events }

/-- `DataCache.deleteEvent` (server.js:219-241).  Returns `false` and
leaves the cache unchanged when the id is absent; otherwise splices the
event out of `events` and filters its id out of its date bucket. -/
def deleteEvent (eventId : String) (s : DataCache) : Bool × DataCache :=
  match s.events.findIdx? (fun e => e.id == eventId) with
  | none => (false, s)
  | some i =>
    match s.events[i]? with
    | none => (false, s)
    | some event =>
      (true,
        { events := s.events.eraseIdx i,
          eventsByDate := fun k =>
            if k = event.date then
              (s.eventsByDate k).filter (fun e => e.id != eventId)
            else s.eventsByDate k })

/-- Fold of add steps: each step is a `(Date.now(), isoTimestamp, body)`
triple fed to `addEvent`, as a burst of `POST /api/events` requests. -/
def runAdds (steps : List (Nat × String × EventData)) (s : DataCache) : DataCache :=
  steps.foldl (fun acc step => (addEvent step.1 step.2.1 step.2.2 acc).2) s

/-- The cache states reachable through the store's lifecycle: the fresh
empty cache, a load from a durable document, and the three mutations. -/
inductive Reachable : DataCache → Prop
  | empty : Reachable emptyCache
  | load (doc : StoredDoc) : Reachable (loadEvents doc)
  | add (nowMs : Nat) (nowIso : String) (d : EventData) {s : DataCache} :
      Reachable s → Reachable (addEvent nowMs nowIso d s).2
  | update (nowIso eventId : String) (u : EventData) {s : DataCache}
      {e : Event} {s' : DataCache} : Reachable s →
      updateEvent nowIso eventId u s = some (e, s') → Reachable s'
  | delete (eventId : String) {s : DataCache} :
      Reachable s → Reachable (deleteEvent eventId s).2

/-- Index key consistency: every event sitting in a date bucket carries
that bucket's key as its own `date` field. -/
def IndexKeyConsistent (s : DataCache) : Prop :=
  ∀ k : Option String, ∀ e ∈ s.eventsByDate k, e.date = k

/-- Reading a decimal digit string back into a number, digit by digit. -/
def readDigits (l : List Char) : Nat :=
  l.foldl (fun a c => a * 10 + (c.toNat - '0'.toNat)) 0

theorem digitChar_toNat {n : Nat} (h : n < 10) :
    (Nat.digitChar n).toNat = n + 48 := by
  interval_cases n <;> decide

theorem toDigitsCore_acc (fuel : Nat) : ∀ (n : Nat) (ds : List Char),
    Nat.toDigitsCore 10 fuel n ds = Nat.toDigitsCore 10 fuel n [] ++ ds := by
  induction fuel with
  | zero => intro n ds; simp [Nat.toDigitsCore]
  | succ fuel ih =>
    intro n ds
    simp only [Nat.toDigitsCore]
    by_cases h : n / 10 = 0
    · simp [h]
    · simp only [h, if_false]
      rw [ih (n / 10) (Nat.digitChar (n % 10) :: ds),
        ih (n / 10) [Nat.digitChar (n % 10)]]
      simp

theorem toDigitsCore_fuel : ∀ (n fuel₁ fuel₂ : Nat) (ds : List Char),
    n < fuel₁ → n < fuel₂ →
    Nat.toDigitsCore 10 fuel₁ n ds = Nat.toDigitsCore 10 fuel₂ n ds := by
  intro n
  induction n using Nat.strong_induction_on with
  | _ n ih =>
    intro fuel₁ fuel₂ ds h₁ h₂
    match fuel₁, fuel₂ with
    | f₁ + 1, f₂ + 1 =>
      simp only [Nat.toDigitsCore]
      by_cases h : n / 10 = 0
      · simp [h]
      · simp only [h, if_false]
        have hlt : n / 10 < n := Nat.div_lt_self (Nat.pos_of_ne_zero (by
          intro hn; rw [hn] at h; exact h rfl)) (by omega)
        exact ih (n / 10) hlt f₁ f₂ _ (by omega) (by omega)

theorem readDigits_append (l : List Char) (c : Char) :
    readDigits (l ++ [c]) = (readDigits l) * 10 + (c.toNat - '0'.toNat) := by
  simp [readDigits, List.foldl_append]

theorem readDigits_toDigits : ∀ n : Nat,
    readDigits (Nat.toDigitsCore 10 (n + 1) n []) = n := by
  intro n
  induction n using Nat.strong_induction_on with
  | _ n ih =>
    have h0 : Char.toNat '0' = 48 := rfl
    simp only [Nat.toDigitsCore]
    by_cases h : n / 10 = 0
    · have hn : n < 10 := by omega
      simp only [h, if_pos, readDigits, List.foldl]
      rw [digitChar_toNat (Nat.mod_lt n (by omega)), h0]
      omega
    · simp only [h, if_false]
      have hlt : n / 10 < n := Nat.div_lt_self (by omega) (by omega)
      rw [toDigitsCore_acc, readDigits_append,
        toDigitsCore_fuel (n / 10) n (n / 10 + 1) [] (by omega) (by omega),
        ih (n / 10) hlt, digitChar_toNat (Nat.mod_lt n (by omega)), h0]
      omega

/-- Decimal rendering of naturals is injective: `Date.now().toString()`
collides only for equal clock readings. -/
theorem Nat.repr_injective : Function.Injective Nat.repr := by
  intro a b h
  have ha := readDigits_toDigits a
  have hb := readDigits_toDigits b
  simp only [Nat.repr, Nat.toDigits] at h
  have hdata := congrArg String.data h
  simp only [List.asString] at hdata
  rw [hdata] at ha
  rw [ha] at hb
  exact hb

theorem rebuildIndex_foldl (l : List Event) :
    ∀ (acc : Option String → List Event) (k : Option String),
    (l.foldl
      (fun idx e => fun k => if k = e.date then idx k ++ [e] else idx k)
      acc) k = acc k ++ l.filter (fun e => e.date == k) := by
  induction l with
  | nil => intro acc k; simp
  | cons e l ih =>
    intro acc k
    simp only [List.foldl_cons, List.filter_cons]
    rw [ih]
    by_cases h : k = e.date
    · simp [h, List.append_assoc]
    · have hne : (e.date == k) = false := by
        simp only [beq_eq_false_iff_ne]
        exact fun hc => h hc.symm
      simp [h, hne]

theorem rebuildIndex_eq_filter (l : List Event) (k : Option String) :
    rebuildIndex l k = l.filter (fun e => e.date == k) := by
  unfold rebuildIndex
  rw [rebuildIndex_foldl]
  simp

theorem indexKeyConsistent_empty : IndexKeyConsistent emptyCache := by
  intro k e he
  simp [emptyCache] at he

theorem indexKeyConsistent_load (doc : StoredDoc) :
    IndexKeyConsistent (loadEvents doc) := by
  intro k e he
  simp only [loadEvents] at he
  rw [rebuildIndex_eq_filter] at he
  have := List.of_mem_filter he
  exact beq_iff_eq.mp this

theorem indexKeyConsistent_add (nowMs : Nat) (nowIso : String) (d : EventData)
    (s : DataCache) (h : IndexKeyConsistent s) :
    IndexKeyConsistent (addEvent nowMs nowIso d s).2 := by
  intro k e he
  simp only [addEvent] at he
  split at he
  case _ hk =>
    rcases List.mem_append.mp he with he | he
    · exact h _ _ he
    · rw [List.mem_singleton.mp he]
      exact hk.symm
  case _ hk =>
    exact h _ _ he

theorem indexKeyConsistent_update (nowIso eventId : String) (u : EventData)
    (s : DataCache) (ev : Event) (s' : DataCache) (h : IndexKeyConsistent s)
    (heq : updateEvent nowIso eventId u s = some (ev, s')) :
    IndexKeyConsistent s' := by
  unfold updateEvent at heq
  split at heq
  · exact absurd heq (by simp)
  case _ i hfind =>
    split at heq
    · exact absurd heq (by simp)
    case _ old hold =>
      simp only [Option.some.injEq, Prod.mk.injEq] at heq
      obtain ⟨hev, hs'⟩ := heq
      subst hs'
      intro k e he
      simp only at he
      by_cases hd : old.date ≠ (mergeEvent nowIso eventId old u).date
      · rw [if_pos hd] at he
        by_cases h1 : k = old.date
        · rw [if_pos h1] at he
          exact h _ _ (List.mem_of_mem_filter he)
        · rw [if_neg h1] at he
          by_cases h2 : k = (mergeEvent nowIso eventId old u).date
          · rw [if_pos h2] at he
            rcases List.mem_append.mp he with he | he
            · exact h _ _ he
            · rw [List.mem_singleton.mp he, h2]
          · rw [if_neg h2] at he
            exact h _ _ he
      · rw [if_neg hd] at he
        exact h _ _ he

theorem indexKeyConsistent_delete (eventId : String) (s : DataCache)
    (h : IndexKeyConsistent s) :
    IndexKeyConsistent (deleteEvent eventId s).2 := by
  unfold deleteEvent
  split
  · exact h
  case _ i hfind =>
    split
    · exact h
    case _ old hold =>
      intro k e he
      simp only at he
      by_cases h1 : k = old.date
      · rw [if_pos h1] at he
        exact h _ _ (List.mem_of_mem_filter he)
      · rw [if_neg h1] at he
        exact h _ _ he

/-- Every cache state reachable through the store's lifecycle has a
key-consistent date index. -/
theorem reachable_indexKeyConsistent {s : DataCache} (h : Reachable s) :
    IndexKeyConsistent s := by
  induction h with
  | empty => exact indexKeyConsistent_empty
  | load doc => exact indexKeyConsistent_load doc
  | add nowMs nowIso d _ ih => exact indexKeyConsistent_add nowMs nowIso d _ ih
  | update nowIso eventId u _ heq ih =>
    exact indexKeyConsistent_update nowIso eventId u _ _ _ ih heq
  | delete eventId _ ih => exact indexKeyConsistent_delete eventId _ ih

/-- C1 counterexample: calling add with an EMPTY title (and a valid date
and type) does not fail — the event is inserted into the primary store
and into its date-index bucket and handed back, contradicting the claim
that such a call fails with a `ValidationError` and inserts nothing
(server.js:145-176 contains no validation). -/
theorem c1_counterexample :
    ((addEvent 1 "2024-01-01T00:00:00.000Z"
        { EventData.empty with
            title := some "", date := some "2024-01-20", type := some "meeting" }
        emptyCache).2.events.map Event.title = [some ""]) ∧
    ((addEvent 1 "2024-01-01T00:00:00.000Z"
        { EventData.empty with
            title := some "", date := some "2024-01-20", type := some "meeting" }
        emptyCache).2.eventsByDate (some "2024-01-20")).length = 1 := by
  decide

/-- C1 (amended): `addEvent` never validates: for every request body —
title, date, or type missing or empty included — the call succeeds,
appends the new event to the primary store and to its own date-index
bucket (leaving every other bucket unchanged), and returns the stored
event; no `ValidationError` path exists. -/
theorem c1_add_never_validates (nowMs : Nat) (nowIso : String)
    (d : EventData) (s : DataCache) :
    (addEvent nowMs nowIso d s).2.events
        = s.events ++ [(addEvent nowMs nowIso d s).1] ∧
    (addEvent nowMs nowIso d s).2.eventsByDate (addEvent nowMs nowIso d s).1.date
        = s.eventsByDate (addEvent nowMs nowIso d s).1.date
            ++ [(addEvent nowMs nowIso d s).1] ∧
    ∀ k, k ≠ (addEvent nowMs nowIso d s).1.date →
      (addEvent nowMs nowIso d s).2.eventsByDate k = s.eventsByDate k := by
  refine ⟨rfl, ?_, ?_⟩
  · simp [addEvent]
  · intro k hk
    simp only [addEvent] at hk ⊢
    rw [if_neg hk]

/-- Witness for the amended C1: a concrete empty-title add leaves an
unrelated date bucket untouched. -/
theorem c1_witness :
    (addEvent 1 "t" { EventData.empty with title := some "" }
        emptyCache).2.eventsByDate (some "2024-02-02")
      = emptyCache.eventsByDate (some "2024-02-02") :=
  (c1_add_never_validates 1 "t" { EventData.empty with title := some "" }
    emptyCache).2.2 (some "2024-02-02") (by decide)

/-- C2 (code bug, demonstrated): add an event, then update only its title
(date unchanged).  `updateEvent` rewrites the primary store but touches
the index only when the date changed (server.js:194), so the date bucket
still holds the superseded object: the event value reachable through the
index (title "Sync") differs from the value in the primary store
(title "Sync v2"), which the invariant claim forbids. -/
theorem c2_store_index_divergence :
    ((updateEvent "t2" "5" { EventData.empty with title := some "Sync v2" }
        (addEvent 5 "t1"
          { EventData.empty with
              title := some "Sync", date := some "2024-01-20",
              type := some "meeting" }
          emptyCache).2).map (fun p => p.2.events.map Event.title)
      = some [some "Sync v2"]) ∧
    ((updateEvent "t2" "5" { EventData.empty with title := some "Sync v2" }
        (addEvent 5 "t1"
          { EventData.empty with
              title := some "Sync", date := some "2024-01-20",
              type := some "meeting" }
          emptyCache).2).map
        (fun p => (p.2.eventsByDate (some "2024-01-20")).map Event.title)
      = some [some "Sync"]) ∧
    (some "Sync v2" : Option String) ≠ some "Sync" := by
  decide

/-- The events array after a burst of adds is the old array followed by
one new event per step; the new event is built from the step's clock
reading and body alone, never from the store contents. -/
theorem runAdds_events (steps : List (Nat × String × EventData)) :
    ∀ s : DataCache, (runAdds steps s).events
      = s.events
          ++ steps.map (fun st => (addEvent st.1 st.2.1 st.2.2 emptyCache).1) := by
  induction steps with
  | nil => intro s; simp [runAdds]
  | cons st steps ih =>
    intro s
    simp only [runAdds, List.foldl_cons, List.map_cons]
    have h := ih (addEvent st.1 st.2.1 st.2.2 s).2
    simp only [runAdds] at h
    rw [h]
    simp [addEvent]

/-- C3 counterexample: two adds within the same millisecond
(`Date.now() = 5` for both) assign both events the id "5": the second
add's id equals an id already held in the store, and the store's ids are
no longer pairwise distinct. -/
theorem c3_counterexample :
    ((runAdds [(5, "a", EventData.empty), (5, "b", EventData.empty)]
        emptyCache).events.map Event.id = ["5", "5"]) ∧
    ¬ ((runAdds [(5, "a", EventData.empty), (5, "b", EventData.empty)]
        emptyCache).events.map Event.id).Nodup := by
  decide

/-- C3 (amended): `addEvent` assigns `Date.now().toString()` (or a
caller-supplied `id` smuggled through the body spread) with no
uniqueness check.  Provided no body supplies an `id` and the clock
readings of the adds are pairwise distinct, a burst of adds from the
empty cache does leave the store's ids pairwise distinct. -/
theorem c3_ids_distinct_of_distinct_clocks
    (steps : List (Nat × String × EventData))
    (hid : ∀ st ∈ steps, st.2.2.id = none)
    (hclk : (steps.map Prod.fst).Nodup) :
    ((runAdds steps emptyCache).events.map Event.id).Nodup := by
  rw [runAdds_events steps emptyCache]
  have hempty : emptyCache.events = [] := rfl
  rw [hempty, List.nil_append, List.map_map]
  have hmap : steps.map (Event.id ∘ fun st => (addEvent st.1 st.2.1 st.2.2 emptyCache).1)
      = steps.map (fun st => Nat.repr st.1) := by
    apply List.map_congr_left
    intro st hst
    simp [addEvent, hid st hst]
  rw [hmap]
  have : steps.map (fun st => Nat.repr st.1) = (steps.map Prod.fst).map Nat.repr := by
    rw [List.map_map]
    rfl
  rw [this]
  exact hclk.map Nat.repr_injective

/-- Witness for the amended C3: two adds at distinct clock readings give
distinct ids. -/
theorem c3_witness :
    ((runAdds [(1, "a", EventData.empty), (2, "b", EventData.empty)]
        emptyCache).events.map Event.id).Nodup :=
  c3_ids_distinct_of_distinct_clocks _ (by decide) (by decide)

/-- Shape of a successful `updateEvent`: when `findIndex` locates the id
at position `i`, the result is the merged event, stored by replacing
position `i` of the primary array. -/
theorem updateEvent_some (nowIso eventId : String) (u : EventData)
    (s : DataCache) {i : Nat} {old : Event}
    (hf : s.events.findIdx? (fun e => e.id == eventId) = some i)
    (hold : s.events[i]? = some old) :
    ∃ s', updateEvent nowIso eventId u s
        = some (mergeEvent nowIso eventId old u, s') ∧
      s'.events = s.events.set i (mergeEvent nowIso eventId old u) := by
  have h : updateEvent nowIso eventId u s
      = some (mergeEvent nowIso eventId old u,
          { events := s.events.set i (mergeEvent nowIso eventId old u),
            eventsByDate :=
              if old.date ≠ (mergeEvent nowIso eventId old u).date then
                fun k =>
                  if k = old.date then
                    (s.eventsByDate k).filter (fun e => e.id != eventId)
                  else if k = (mergeEvent nowIso eventId old u).date then
                    s.eventsByDate k ++ [mergeEvent nowIso eventId old u]
                  else s.eventsByDate k
              else s.eventsByDate }) := by
    simp only [updateEvent, hf, hold]
  exact ⟨_, h, rfl⟩

/-- C4: `updateEvent` returns `null` — which the route layer reports as
the 404 NotFound failure — exactly when no stored event has the id; on
success the stored result is the merge: every provided field is carried,
every absent field (and `createdAt`) is retained, `updatedAt` is set to
the call's timestamp, and the id stays the original one even when the
update body contains an `id` key. -/
theorem c4_update_spec (nowIso eventId : String) (u : EventData)
    (s : DataCache) :
    (updateEvent nowIso eventId u s = none ↔ ∀ e ∈ s.events, e.id ≠ eventId) ∧
    (∀ i old, s.events.findIdx? (fun e => e.id == eventId) = some i →
      s.events[i]? = some old →
      old.id = eventId ∧
      (∃ s', updateEvent nowIso eventId u s
          = some (mergeEvent nowIso eventId old u, s') ∧
        s'.events = s.events.set i (mergeEvent nowIso eventId old u)) ∧
      (mergeEvent nowIso eventId old u).id = old.id ∧
      (mergeEvent nowIso eventId old u).updatedAt = some nowIso ∧
      (mergeEvent nowIso eventId old u).createdAt = old.createdAt ∧
      (∀ x, u.title = some x → (mergeEvent nowIso eventId old u).title = some x) ∧
      (u.title = none → (mergeEvent nowIso eventId old u).title = old.title) ∧
      (∀ x, u.date = some x → (mergeEvent nowIso eventId old u).date = some x) ∧
      (u.date = none → (mergeEvent nowIso eventId old u).date = old.date) ∧
      (∀ x, u.time = some x → (mergeEvent nowIso eventId old u).time = some x) ∧
      (u.time = none → (mergeEvent nowIso eventId old u).time = old.time) ∧
      (∀ x, u.type = some x → (mergeEvent nowIso eventId old u).type = some x) ∧
      (u.type = none → (mergeEvent nowIso eventId old u).type = old.type) ∧
      (∀ x, u.description = some x →
        (mergeEvent nowIso eventId old u).description = some x) ∧
      (u.description = none →
        (mergeEvent nowIso eventId old u).description = old.description) ∧
      (∀ x, u.location = some x →
        (mergeEvent nowIso eventId old u).location = some x) ∧
      (u.location = none →
        (mergeEvent nowIso eventId old u).location = old.location) ∧
      (∀ x, u.notifications = some x →
        (mergeEvent nowIso eventId old u).notifications = x) ∧
      (u.notifications = none →
        (mergeEvent nowIso eventId old u).notifications = old.notifications)) := by
  constructor
  · constructor
    · intro h e he heq
      cases hfi : s.events.findIdx? (fun e => e.id == eventId) with
      | none =>
        have hfalse := List.findIdx?_eq_none_iff.mp hfi e he
        rw [heq] at hfalse
        simp at hfalse
      | some i =>
        have hi := (List.findIdx?_eq_some_iff_findIdx_eq.mp hfi).1
        obtain ⟨s', heq', _⟩ :=
          updateEvent_some nowIso eventId u s hfi (List.getElem?_eq_getElem hi)
        rw [h] at heq'
        exact absurd heq' (by simp)
    · intro h
      have hfnone : s.events.findIdx? (fun e => e.id == eventId) = none :=
        List.findIdx?_eq_none_iff.mpr (fun e he => by simpa using h e he)
      simp only [updateEvent, hfnone]
  · intro i old hf hold
    have hp := List.findIdx?_of_eq_some hf
    rw [hold] at hp
    simp only at hp
    have hid : old.id = eventId := beq_iff_eq.mp hp
    refine ⟨hid, updateEvent_some nowIso eventId u s hf hold,
      by simp [mergeEvent, hid], rfl, rfl, ?_, ?_, ?_, ?_, ?_, ?_, ?_, ?_,
      ?_, ?_, ?_, ?_, ?_, ?_⟩
    all_goals
      first
      | (intro x hx; simp [mergeEvent, hx])
      | (intro hx; simp [mergeEvent, hx])

/-- Witness for C4: the success branch of the theorem applied to a
concrete one-event store. -/
theorem c4_witness :
    (addEvent 5 "t1" { EventData.empty with title := some "A" }
        emptyCache).1.id = "5" :=
  ((c4_update_spec "t2" "5" { EventData.empty with title := some "B" }
      (addEvent 5 "t1" { EventData.empty with title := some "A" }
        emptyCache).2).2
    0 (addEvent 5 "t1" { EventData.empty with title := some "A" } emptyCache).1
    (by decide) (by decide)).1

/-- C6: `getEventsNeedingReminders` is a pure read of the store (the
embedding gives it no way to write), and an entry is returned iff the
underlying event has a truthy (present, non-empty) date and time whose
combined timestamp `T = dateTimeMs date time` satisfies
`now < T ≤ now + minutesBefore * 60000`; past events and events with a
missing time never appear. -/
theorem c6_reminder_window_iff (dateTimeMs : String → String → Int)
    (nowMs : Int) (nowIso : String) (minutesBefore : Nat) (s : DataCache)
    (r : ReminderEntry) :
    r ∈ getEventsNeedingReminders dateTimeMs nowMs nowIso minutesBefore s ↔
      ∃ e ∈ s.events, ∃ d t, e.date = some d ∧ d ≠ "" ∧
        e.time = some t ∧ t ≠ "" ∧
        nowMs < dateTimeMs d t ∧
        dateTimeMs d t ≤ nowMs + (minutesBefore : Int) * 60000 ∧
        r = { event := e, minutesUntil := (dateTimeMs d t - nowMs) / 60000,
              notificationTime := nowIso } := by
  unfold getEventsNeedingReminders
  rw [List.mem_filterMap]
  constructor
  · rintro ⟨e, he, hfe⟩
    refine ⟨e, he, ?_⟩
    cases hd : e.date with
    | none => rw [hd] at hfe; simp at hfe
    | some d =>
      cases ht : e.time with
      | none => rw [hd, ht] at hfe; simp at hfe
      | some t =>
        rw [hd, ht] at hfe
        simp only at hfe
        split_ifs at hfe with h1 h2
        · obtain ⟨h1a, h1b⟩ := h1
          obtain ⟨h2a, h2b⟩ := h2
          refine ⟨d, t, rfl, h1a, rfl, h1b, h2a, h2b, ?_⟩
          exact (Option.some.injEq _ _ ▸ hfe).symm
  · rintro ⟨e, he, d, t, hd, hd0, ht, ht0, hlt, hle, hr⟩
    refine ⟨e, he, ?_⟩
    rw [hd, ht]
    simp only
    rw [if_pos ⟨hd0, ht0⟩, if_pos ⟨hlt, hle⟩, hr]

/-- C9 counterexample: add events "1" (date 2024-01-01) and "2"
(date 2024-01-02), then update "1" to date 2024-01-02.  The live index
bucket for 2024-01-02 is ["2", "1"] ("1" was pushed on date change,
server.js:204), but after a `writeEvents`/`loadEvents` round trip the
bucket is rebuilt in store order as ["1", "2"]: the claim that each
bucket holds the same events in the same insertion order fails. -/
theorem c9_counterexample :
    ((loadEvents (writeEvents "x"
        (((updateEvent "t3" "1" { EventData.empty with date := some "2024-01-02" }
            (addEvent 2 "t2"
              { EventData.empty with
                  title := some "B", date := some "2024-01-02", type := some "m" }
              (addEvent 1 "t1"
                { EventData.empty with
                    title := some "A", date := some "2024-01-01", type := some "m" }
                emptyCache).2).2).map Prod.snd).getD emptyCache))).eventsByDate
        (some "2024-01-02")).map Event.id = ["1", "2"] ∧
    ((((updateEvent "t3" "1" { EventData.empty with date := some "2024-01-02" }
        (addEvent 2 "t2"
          { EventData.empty with
              title := some "B", date := some "2024-01-02", type := some "m" }
          (addEvent 1 "t1"
            { EventData.empty with
                title := some "A", date := some "2024-01-01", type := some "m" }
            emptyCache).2).2).map Prod.snd).getD emptyCache).eventsByDate
        (some "2024-01-02")).map Event.id = ["2", "1"] ∧
    (["1", "2"] : List String) ≠ ["2", "1"] := by
  decide

/-- C9 (amended): a `writeEvents`/`loadEvents` round trip reproduces the
event array exactly (the document's `lastModified` stamp is outside the
events and no event field is altered), and rebuilds the date index by
grouping the events by date in STORE order — each bucket equals the
store's events with that date, which can differ from the pre-save
bucket's insertion order after a date-changing update. -/
theorem c9_roundtrip_spec (nowIso : String) (s : DataCache) :
    (loadEvents (writeEvents nowIso s)).events = s.events ∧
    ∀ k, (loadEvents (writeEvents nowIso s)).eventsByDate k
        = s.events.filter (fun e => e.date == k) := by
  refine ⟨rfl, fun k => ?_⟩
  simp only [loadEvents, writeEvents]
  exact rebuildIndex_eq_filter s.events k

/-- The search predicate cannot throw on an event whose title and type
are both present. -/
theorem matchesQuery_isSome (q : String) (e : Event)
    (ht : e.title.isSome) (hty : e.type.isSome) :
    (matchesQuery q e).isSome := by
  cases hmt : e.title with
  | none => rw [hmt] at ht; simp at ht
  | some t =>
    cases hmty : e.type with
    | none => rw [hmty] at hty; simp at hty
    | some ty =>
      simp only [matchesQuery, hmt, hmty]
      split_ifs <;> simp

/-- A filter whose predicate never throws on the list never throws. -/
theorem filterSafe_isSome (p : α → Option Bool) (l : List α)
    (h : ∀ a ∈ l, (p a).isSome) : (filterSafe p l).isSome := by
  induction l with
  | nil => simp [filterSafe]
  | cons a as ih =>
    have ha := h a (List.mem_cons_self a as)
    have has := ih (fun x hx => h x (List.mem_cons_of_mem a hx))
    unfold filterSafe
    cases hpa : p a with
    | none => rw [hpa] at ha; simp at ha
    | some b =>
      cases hfs : filterSafe p as with
      | none => rw [hfs] at has; simp at has
      | some r => cases b <;> simp

/-- C10: over a store in which every event has a present title and a
present type, `searchEvents` is total for every query (no access throws),
and a missing description is safe (it is truthiness-guarded).  The
guard-free accesses make the precondition necessary: a store holding an
event with no title throws, as does one holding an event with no type
whose title and description fail to match (short-circuiting protects the
type access only when an earlier field matches). -/
theorem c10_search_safety :
    (∀ q events, (∀ e ∈ events, e.title.isSome ∧ e.type.isSome) →
      (searchEvents q events).isSome) ∧
    (searchEvents "q"
        [{ id := "9", title := none, date := none, time := none,
           type := some "x", description := none, location := none,
           notifications := defaultNotifications, createdAt := "c",
           updatedAt := none }] = none) ∧
    (searchEvents "zz"
        [{ id := "8", title := some "a", date := none, time := none,
           type := none, description := none, location := none,
           notifications := defaultNotifications, createdAt := "c",
           updatedAt := none }] = none) ∧
    (searchEvents "a"
        [{ id := "7", title := some "Meeting A", date := none, time := none,
           type := some "t", description := none, location := none,
           notifications := defaultNotifications, createdAt := "c",
           updatedAt := none }]
      = some [{ id := "7", title := some "Meeting A", date := none,
                time := none, type := some "t", description := none,
                location := none, notifications := defaultNotifications,
                createdAt := "c", updatedAt := none }]) := by
  refine ⟨?_, by decide, by decide, by decide⟩
  intro q events h
  unfold searchEvents
  exact filterSafe_isSome _ _
    (fun e he => matchesQuery_isSome (jsToLower q) e (h e he).1 (h e he).2)

/-- Witness for C10: the totality branch applied to a concrete
well-formed one-event store. -/
theorem c10_witness :
    (searchEvents "x"
      [{ id := "1", title := some "T", date := none, time := none,
         type := some "ty", description := none, location := none,
         notifications := defaultNotifications, createdAt := "c",
         updatedAt := none }]).isSome :=
  c10_search_safety.1 "x"
    [{ id := "1", title := some "T", date := none, time := none,
       type := some "ty", description := none, location := none,
       notifications := defaultNotifications, createdAt := "c",
       updatedAt := none }] (by decide)

/-- Reading back the decimal rendering of `n` recovers `n`. -/
theorem readDigits_repr (n : Nat) : readDigits (Nat.repr n).data = n := by
  have h : (Nat.repr n).data = Nat.toDigitsCore 10 (n + 1) n [] := rfl
  rw [h]
  exact readDigits_toDigits n

/-- C7: over any reachable store and a day-string scheme whose parses are
monotone, `getUpcomingEvents` returns exactly the concatenation of the
`days + 1` date buckets from today through `today + days` inclusive, in
walk order (the stable sort leaves the already-sorted concatenation
untouched, so insertion order is preserved on equal dates); every
returned event's date is one of those `days + 1` days — never before
today, never more than `days` days out — and the boundary bucket
`today + days` is included in full. -/
theorem c7_upcoming_spec (dayStr : Nat → String) (dateVal : String → Int)
    (today days : Nat) (s : DataCache)
    (hmono : ∀ i j : Nat, i ≤ j → dateVal (dayStr i) ≤ dateVal (dayStr j))
    (hR : Reachable s) :
    getUpcomingEvents dayStr dateVal today days s
        = ((List.range (days + 1)).map
            (fun i => s.eventsByDate (some (dayStr (today + i))))).flatten ∧
    (∀ e ∈ getUpcomingEvents dayStr dateVal today days s,
      ∃ i, i ≤ days ∧ e.date = some (dayStr (today + i))) ∧
    (∀ e ∈ s.eventsByDate (some (dayStr (today + days))),
      e ∈ getUpcomingEvents dayStr dateVal today days s) ∧
    (getUpcomingEvents dayStr dateVal today days s).Pairwise
      (fun a b => dateVal (dateField a) ≤ dateVal (dateField b)) := by
  have hconsist := reachable_indexKeyConsistent hR
  have hdate : ∀ i : Nat, ∀ e ∈ s.eventsByDate (some (dayStr (today + i))),
      dateField e = dayStr (today + i) := by
    intro i e he
    have := hconsist _ e he
    simp [dateField, this]
  have hpairProp :
      (((List.range (days + 1)).map
          (fun i => s.eventsByDate (some (dayStr (today + i))))).flatten).Pairwise
        (fun a b => dateVal (dateField a) ≤ dateVal (dateField b)) := by
    rw [List.pairwise_flatten]
    constructor
    · intro l hl
      rw [List.mem_map] at hl
      obtain ⟨i, _, rfl⟩ := hl
      apply List.pairwise_of_forall_mem_list
      intro a ha b hb
      rw [hdate i a ha, hdate i b hb]
    · rw [List.pairwise_map]
      have hlt : (List.range (days + 1)).Pairwise (· < ·) :=
        List.pairwise_lt_range _
      refine hlt.imp ?_
      intro i j hij a ha b hb
      rw [hdate i a ha, hdate j b hb]
      exact hmono _ _ (by omega)
  have hpairBool :
      (((List.range (days + 1)).map
          (fun i => s.eventsByDate (some (dayStr (today + i))))).flatten).Pairwise
        (fun a b => decide (dateVal (dateField a) ≤ dateVal (dateField b)) = true) :=
    hpairProp.imp (fun h => by simpa using h)
  have heq : getUpcomingEvents dayStr dateVal today days s
      = ((List.range (days + 1)).map
          (fun i => s.eventsByDate (some (dayStr (today + i))))).flatten := by
    simp only [getUpcomingEvents]
    exact List.mergeSort_of_sorted hpairBool
  refine ⟨heq, ?_, ?_, ?_⟩
  · intro e he
    rw [heq, List.mem_flatten] at he
    obtain ⟨l, hl, hel⟩ := he
    rw [List.mem_map] at hl
    obtain ⟨i, hi, rfl⟩ := hl
    rw [List.mem_range] at hi
    exact ⟨i, by omega, hconsist _ e hel⟩
  · intro e he
    rw [heq, List.mem_flatten]
    refine ⟨s.eventsByDate (some (dayStr (today + days))), ?_, he⟩
    rw [List.mem_map]
    exact ⟨days, by rw [List.mem_range]; omega, rfl⟩
  · rw [heq]
    exact hpairProp

/-- Witness for C7: the theorem applied to a concrete reachable one-event
store with the decimal day scheme. -/
theorem c7_witness :
    getUpcomingEvents Nat.repr (fun str => (readDigits str.data : Int)) 7 0
        (addEvent 1 "t" { EventData.empty with date := some "7" } emptyCache).2
      = ((List.range 1).map
          (fun i => (addEvent 1 "t" { EventData.empty with date := some "7" }
            emptyCache).2.eventsByDate (some (Nat.repr (7 + i))))).flatten :=
  (c7_upcoming_spec Nat.repr (fun str => (readDigits str.data : Int)) 7 0
    (addEvent 1 "t" { EventData.empty with date := some "7" } emptyCache).2
    (fun i j hij => by simp only [readDigits_repr]; exact_mod_cast hij)
    (Reachable.add 1 "t" { EventData.empty with date := some "7" }
      Reachable.empty)).1

/-- C8: `triggerWebhooks` makes one delivery attempt for exactly the
registered subscriptions whose `events` list contains the fired event
type or the wildcard "*" (so one `event.created` subscription plus one
wildcard subscription yield exactly two attempts for a created event),
and `callWebhook` attaches, for a subscription holding a secret, the
keyed digest of the exact serialized payload as the
`X-Calendar-Signature` header value (and no signature header otherwise). -/
theorem c8_webhook_fanout :
    (∀ (hmac : String → String → String)
        (serialize : WebhookPayload → String) (nowIso eventType : String)
        (data : WebhookData) (webhooks : List Webhook),
      (∀ att ∈ triggerWebhooks hmac serialize nowIso eventType data webhooks,
        ∃ w ∈ webhooks, (eventType ∈ w.events ∨ "*" ∈ w.events) ∧
          att = callWebhook hmac serialize nowIso eventType data w) ∧
      (∀ w ∈ webhooks, (eventType ∈ w.events ∨ "*" ∈ w.events) →
        callWebhook hmac serialize nowIso eventType data w
          ∈ triggerWebhooks hmac serialize nowIso eventType data webhooks) ∧
      (∀ w : Webhook, ∀ secret, w.secret = some secret →
        (callWebhook hmac serialize nowIso eventType data w).headers
          = [("Content-Type", "application/json"),
             ("X-Calendar-Signature",
              hmac secret (serialize
                { event := eventType, data := data, timestamp := nowIso }))]) ∧
      (∀ w : Webhook, w.secret = none →
        (callWebhook hmac serialize nowIso eventType data w).headers
          = [("Content-Type", "application/json")])) ∧
    (∀ (hmac : String → String → String)
        (serialize : WebhookPayload → String) (nowIso : String)
        (data : WebhookData),
      (triggerWebhooks hmac serialize nowIso "event.created" data
        [{ id := "w1", url := "u1", events := ["event.created"],
           secret := none, createdAt := "c" },
         { id := "w2", url := "u2", events := ["*"],
           secret := none, createdAt := "c" }]).length = 2) := by
  constructor
  · intro hmac serialize nowIso eventType data webhooks
    refine ⟨?_, ?_, ?_, ?_⟩
    · intro att hatt
      unfold triggerWebhooks at hatt
      rw [List.mem_map] at hatt
      obtain ⟨w, hw, rfl⟩ := hatt
      rw [List.mem_filter] at hw
      obtain ⟨hw, hcond⟩ := hw
      refine ⟨w, hw, ?_, rfl⟩
      rcases Bool.or_eq_true _ _ |>.mp hcond with h | h
      · exact Or.inl (by simpa using h)
      · exact Or.inr (by simpa using h)
    · intro w hw hcond
      unfold triggerWebhooks
      rw [List.mem_map]
      refine ⟨w, ?_, rfl⟩
      rw [List.mem_filter]
      refine ⟨hw, ?_⟩
      rcases hcond with h | h
      · exact Bool.or_eq_true _ _ |>.mpr (Or.inl (by simpa using h))
      · exact Bool.or_eq_true _ _ |>.mpr (Or.inr (by simpa using h))
    · intro w secret hsec
      simp [callWebhook, hsec]
    · intro w hsec
      simp [callWebhook, hsec]
  · intro hmac serialize nowIso data
    rfl

/-- C5 counterexample: a query combining `type=party` with
`search=meeting`, against a store holding one event of type "meeting":
the handler's search branch replaces the type-filtered list (which is
empty) with the search matches over the whole store (server.js:551-553),
so the returned event has type "meeting", not the required "party" — the
returned events do not satisfy all supplied filters simultaneously. -/
theorem c5_counterexample :
    ((apiGetEvents (fun _ _ => []) (fun _ _ => ("", ""))
        { rangeStart := none, rangeEnd := none, month := none, year := none,
          type := some "party", search := some "meeting",
          limit := 100, offset := 0 }
        (addEvent 7 "t"
          { EventData.empty with
              title := some "meeting", date := some "2024-01-01",
              type := some "meeting" }
          emptyCache).2).map (fun r => r.events.map Event.type))
      = some [some "meeting"] ∧
    (some "meeting" : Option String) ≠ some "party" := by
  decide

/-- C5 (amended): over a reachable store whose events all have a present
title and type, the handler always answers; `total` and `hasMore` are
computed on the full filtered list before the `offset`/`limit` slice is
taken.  When no `search` is supplied, every returned event satisfies the
`type` filter, lies (when a `start`/`end` range is supplied) in a bucket
of the walked day range, and lies (when `start`/`end` are not both
supplied and a `month`/`year` pair is) in a bucket of the walked
month-range days; but a supplied `search` REPLACES the range, month and
type filters, the full list then being exactly the search matches over
the whole store. -/
theorem c5_list_filters (rangeDays : String → String → List String)
    (monthRangeOf : Nat → Nat → String × String) (q : ListQuery)
    (s : DataCache) (hR : Reachable s)
    (hwf : ∀ e ∈ s.events, e.title.isSome ∧ e.type.isSome) :
    ∃ r full, apiGetEvents rangeDays monthRangeOf q s = some r ∧
      r.events = (full.drop q.offset).take q.limit ∧
      r.total = full.length ∧
      r.offset = q.offset ∧
      r.limit = q.limit ∧
      r.hasMore = decide (full.length > q.offset + q.limit) ∧
      (∀ qs, q.search = some qs → searchEvents qs s.events = some full) ∧
      (q.search = none → ∀ t, q.type = some t →
        ∀ e ∈ full, e.type = some t) ∧
      (q.search = none → ∀ a b, q.rangeStart = some a → q.rangeEnd = some b →
        ∀ e ∈ full, ∃ d ∈ rangeDays a b, e.date = some d) ∧
      (q.search = none → (q.rangeStart = none ∨ q.rangeEnd = none) →
        ∀ m y, q.month = some m → q.year = some y →
        ∀ e ∈ full,
          ∃ d ∈ rangeDays (monthRangeOf y m).1 (monthRangeOf y m).2,
            e.date = some d) := by
  have hconsist := reachable_indexKeyConsistent hR
  cases hs : q.search with
  | some qs =>
    have hsome : (searchEvents qs s.events).isSome := by
      unfold searchEvents
      exact filterSafe_isSome _ _
        (fun e he => matchesQuery_isSome (jsToLower qs) e (hwf e he).1 (hwf e he).2)
    cases hfound : searchEvents qs s.events with
    | none => rw [hfound] at hsome; simp at hsome
    | some found =>
      refine ⟨paginate found q, found, ?_, rfl, rfl, rfl, rfl, rfl, ?_, ?_, ?_, ?_⟩
      · simp only [apiGetEvents, hs, hfound]
      · intro qs' hqs'
        injection hqs' with h
        subst h
        exact hfound
      · intro hnone
        simp at hnone
      · intro hnone
        simp at hnone
      · intro hnone
        simp at hnone
  | none =>
    refine ⟨paginate (typeFilteredOf rangeDays monthRangeOf q s) q,
      typeFilteredOf rangeDays monthRangeOf q s,
      ?_, rfl, rfl, rfl, rfl, rfl, ?_, ?_, ?_, ?_⟩
    · simp only [apiGetEvents, hs]
    · intro qs hqs
      simp at hqs
    · intro _ t ht e he
      unfold typeFilteredOf at he
      simp only [ht] at he
      have := List.of_mem_filter he
      exact beq_iff_eq.mp this
    · intro _ a b ha hb e he
      have hrange : e ∈ rangeFilteredOf rangeDays monthRangeOf q s := by
        unfold typeFilteredOf at he
        cases hty : q.type with
        | none => simp only [hty] at he; exact he
        | some t =>
          simp only [hty] at he
          exact List.mem_of_mem_filter he
      unfold rangeFilteredOf at hrange
      simp only [ha, hb] at hrange
      unfold getEventsInRange at hrange
      rw [List.mem_flatten] at hrange
      obtain ⟨l, hl, hel⟩ := hrange
      rw [List.mem_map] at hl
      obtain ⟨d, hd, rfl⟩ := hl
      exact ⟨d, hd, hconsist _ e hel⟩
    · intro _ hor m y hm hy e he
      have hrange : e ∈ rangeFilteredOf rangeDays monthRangeOf q s := by
        unfold typeFilteredOf at he
        cases hty : q.type with
        | none => simp only [hty] at he; exact he
        | some t =>
          simp only [hty] at he
          exact List.mem_of_mem_filter he
      unfold rangeFilteredOf at hrange
      have hred : e ∈ getEventsInRange rangeDays
          (monthRangeOf y m).1 (monthRangeOf y m).2 s := by
        rcases hor with ha | hb
        · simp only [ha, hm, hy] at hrange
          exact hrange
        · cases hsa : q.rangeStart with
          | none =>
            simp only [hsa, hb, hm, hy] at hrange
            exact hrange
          | some a =>
            simp only [hsa, hb, hm, hy] at hrange
            exact hrange
      unfold getEventsInRange at hred
      rw [List.mem_flatten] at hred
      obtain ⟨l, hl, hel⟩ := hred
      rw [List.mem_map] at hl
      obtain ⟨d, hd, rfl⟩ := hl
      exact ⟨d, hd, hconsist _ e hel⟩

/-- Witness for the amended C5: a concrete search query over a concrete
reachable well-formed store yields an answer. -/
theorem c5_witness :
    (apiGetEvents (fun _ _ => []) (fun _ _ => ("", ""))
      { rangeStart := none, rangeEnd := none, month := none, year := none,
        type := none, search := some "a", limit := 100, offset := 0 }
      (addEvent 5 "t"
        { EventData.empty with title := some "A", type := some "m" }
        emptyCache).2).isSome := by
  obtain ⟨r, full, heq, _⟩ :=
    c5_list_filters (fun _ _ => []) (fun _ _ => ("", ""))
      { rangeStart := none, rangeEnd := none, month := none, year := none,
        type := none, search := some "a", limit := 100, offset := 0 }
      (addEvent 5 "t"
        { EventData.empty with title := some "A", type := some "m" }
        emptyCache).2
      (Reachable.add 5 "t"
        { EventData.empty with title := some "A", type := some "m" }
        Reachable.empty)
      (by decide)
  rw [heq]
  rfl
